import Mathlib

/-!
Shallow embedding of the `AdditionDataset` class from `play_math.ipynb`
(the only self-contained logic of the repository), together with proofs of
the specified properties of its construction, splitting, rendering and
masking behaviour.

The class stores `split`, `ndigit`, `vocab_size`, `block_size` and the
array `ixes` of universe indices of the chosen split; `__len__` returns
`ixes.size` and `__getitem__` decodes the stored universe index at a
position into an addition problem and renders it as a digit sequence.
-/

/-- Modelled from the spec: a deterministic pseudo-random key derived from a
seed, used to drive the permutation that stands in for
`numpy.random.RandomState(seed).permutation(num)` — external library code not
part of this repository. Splitmix/LCG-style 64-bit mixing. -/
def randKey (seed i : Nat) : Nat :=
  (6364136223846793005 * (seed + i) + 1442695040888963407) % 2 ^ 64

/-- Modelled from the spec: "Seed a pseudo-random generator with the fixed
constant 1337 and produce a permutation of `[0, U)`." Stands in for
`numpy.random.RandomState(seed).permutation(num)`: the list `[0, num)`
shuffled by sorting on pseudo-random keys. It is a pure function of
`(seed, num)`, hence deterministic across constructions, and a permutation
of `List.range num` by `List.perm_insertionSort`. -/
def npPermutation (seed num : Nat) : List Nat :=
  List.insertionSort (fun i j => randKey seed i ≤ randKey seed j) (List.range num)

/-- The fields stored on `self` by `AdditionDataset.__init__`. -/
structure AdditionDataset where
  split : String
  ndigit : Nat
  vocab_size : Nat
  block_size : Nat
  ixes : List Nat

/-- `AdditionDataset.__init__(ndigit, split)`:
`num = (10**ndigit)**2`; `perm = np.random.RandomState(1337).permutation(num)`;
`num_test = min(int(num*0.2), 1000)`;
`ixes = perm[:num_test] if split == 'test' else perm[num_test:]`.
For every universe size `num = (10**ndigit)**2`, Python's `int(num*0.2)`
agrees with `num / 5` below the 1000 cap (they differ only far above the cap,
where `min` erases the difference), so `min (num / 5) 1000` is the faithful
value of `num_test`. -/
def AdditionDataset.init (ndigit : Nat) (split : String) : AdditionDataset :=
  let num := (10 ^ ndigit) ^ 2
  let perm := npPermutation 1337 num
  let num_test := min (num / 5) 1000
  { split := split
    ndigit := ndigit
    vocab_size := 10
    block_size := ndigit + ndigit + ndigit + 1 - 1
    ixes := if split == "test" then perm.take num_test else perm.drop num_test }

/-- `__len__`: `self.ixes.size`. -/
def AdditionDataset.size (d : AdditionDataset) : Nat :=
  d.ixes.length

/-- Fuel-driven digit extraction; `fuel > m` always suffices, so
`toDecimal` below never hits the fuel-exhausted branch. Structural
recursion keeps it evaluable by the kernel. -/
def toDecimalGo (fuel : Nat) (m : Nat) : List Nat :=
  match fuel with
  | 0 => []
  | fuel + 1 => if m < 10 then [m] else toDecimalGo fuel (m / 10) ++ [m % 10]

/-- MSB-first decimal digit list of `m`; `0` renders as `[0]`, matching
Python's `%d` which always prints at least one digit. -/
def toDecimal (m : Nat) : List Nat :=
  toDecimalGo (m + 1) m

/-- Python's `'%0{w}d' % m`: the decimal digits of `m`, left-padded with
zeros to width `w`; never truncated when `m` needs more than `w` digits. -/
def renderNum (w m : Nat) : List Nat :=
  List.replicate (w - (toDecimal m).length) 0 ++ toDecimal m

/-- Read an MSB-first digit list back into the number it denotes. -/
def fromDecimal (l : List Nat) : Nat :=
  l.foldl (fun acc d => 10 * acc + d) 0

/-- `fromDecimal` over integer token lists (the tokens handed to the model). -/
def fromDecimalZ (l : List Int) : Int :=
  l.foldl (fun acc d => 10 * acc + d) 0

/-- Python slice-stop normalization for `l[:k]`: a negative `k` counts from
the end (`len + k`, clamped at 0), a nonnegative `k` is clamped at `len`. -/
def pySliceStop (len : Nat) (k : Int) : Nat :=
  if k < 0 then ((len : Int) + k).toNat else min k.toNat len

/-- `y[:k] = -100`: overwrite the first `k` entries (all of them when
`k ≥ length`) with the ignore sentinel. -/
def maskTo (k : Nat) (l : List Int) : List Int :=
  List.replicate (min k l.length) (-100) ++ l.drop k

/-- `a = idx // nd`, `b = idx % nd` with `nd = 10**ndigit`, the decoding
step of `__getitem__`. -/
def decodeIdx (ndigit i : Nat) : Nat × Nat :=
  (i / 10 ^ ndigit, i % 10 ^ ndigit)

/-- The full rendered digit sequence `dix` of `__getitem__` for universe
index `i`: `render = '%0{n}d%0{n}d%0{n+1}d' % (a, b, c)` with
`a = i // 10**n`, `b = i % 10**n`, `c = a + b`, split into digit tokens. -/
def renderSeq (ndigit i : Nat) : List Nat :=
  let nd := 10 ^ ndigit
  let a := i / nd
  let b := i % nd
  let c := a + b
  renderNum ndigit a ++ renderNum ndigit b ++ renderNum (ndigit + 1) c

/-- The pure tail of `AdditionDataset.__getitem__` once the universe index
`i` has been fetched from `ixes`: `x = dix[:-1]`, `y = dix[1:]` with
`y[:ndigit*2-1] = -100` (the slice stop `ndigit*2-1` is a Python `int`, so
it is normalized as a possibly negative slice bound). -/
def renderItem (ndigit i : Nat) : List Int × List Int :=
  let dix := renderSeq ndigit i
  let x := (dix.dropLast).map (fun d : Nat => (d : Int))
  let y0 := (dix.drop 1).map (fun d : Nat => (d : Int))
  let y := maskTo (pySliceStop y0.length (2 * (ndigit : Int) - 1)) y0
  (x, y)

/-- `AdditionDataset.__getitem__(idx)`: `idx = self.ixes[idx]` uses numpy
integer indexing, which wraps a negative position `idx` to `len + idx` and
raises `IndexError` (here: `none`) whenever the normalized position is out
of `[0, len)`; then the item is rendered from the fetched universe index. -/
def AdditionDataset.getitem (d : AdditionDataset) (idx : Int) : Option (List Int × List Int) :=
  let len := d.ixes.length
  let j : Int := if idx < 0 then (len : Int) + idx else idx
  if 0 ≤ j ∧ j < (len : Int) then some (renderItem d.ndigit (d.ixes.getD j.toNat 0)) else none

/-! ### Permutation facts -/

theorem npPermutation_perm (seed num : Nat) :
    (npPermutation seed num).Perm (List.range num) :=
  List.perm_insertionSort _ _

theorem npPermutation_length (seed num : Nat) :
    (npPermutation seed num).length = num := by
  simpa using (npPermutation_perm seed num).length_eq

theorem npPermutation_nodup (seed num : Nat) :
    (npPermutation seed num).Nodup :=
  (npPermutation_perm seed num).nodup_iff.mpr (List.nodup_range _)

theorem mem_npPermutation (seed num i : Nat) :
    i ∈ npPermutation seed num ↔ i < num := by
  rw [(npPermutation_perm seed num).mem_iff, List.mem_range]

/-! ### Construction facts -/

theorem init_ixes_test (n : Nat) :
    (AdditionDataset.init n "test").ixes
      = (npPermutation 1337 ((10 ^ n) ^ 2)).take (min ((10 ^ n) ^ 2 / 5) 1000) := rfl

theorem init_ixes_of_ne_test (n : Nat) (s : String) (hs : s ≠ "test") :
    (AdditionDataset.init n s).ixes
      = (npPermutation 1337 ((10 ^ n) ^ 2)).drop (min ((10 ^ n) ^ 2 / 5) 1000) := by
  have h : (s == "test") = false := by simpa using hs
  simp [AdditionDataset.init, h]

theorem init_ndigit (n : Nat) (s : String) : (AdditionDataset.init n s).ndigit = n := rfl

theorem init_block_size (n : Nat) (s : String) :
    (AdditionDataset.init n s).block_size = n + n + n + 1 - 1 := rfl

theorem num_test_le (n : Nat) : min ((10 ^ n) ^ 2 / 5) 1000 ≤ (10 ^ n) ^ 2 :=
  le_trans (min_le_left _ _) (Nat.div_le_self _ _)

theorem test_size (n : Nat) :
    (AdditionDataset.init n "test").size = min ((10 ^ n) ^ 2 / 5) 1000 := by
  rw [AdditionDataset.size, init_ixes_test, List.length_take, npPermutation_length]
  exact Nat.min_eq_left (num_test_le n)

theorem train_size (n : Nat) (s : String) (hs : s ≠ "test") :
    (AdditionDataset.init n s).size = (10 ^ n) ^ 2 - min ((10 ^ n) ^ 2 / 5) 1000 := by
  rw [AdditionDataset.size, init_ixes_of_ne_test n s hs, List.length_drop,
    npPermutation_length]

theorem mem_ixes_lt (n : Nat) (s : String) (i : Nat)
    (hi : i ∈ (AdditionDataset.init n s).ixes) : i < (10 ^ n) ^ 2 := by
  by_cases hs : s = "test"
  · subst hs
    rw [init_ixes_test] at hi
    exact (mem_npPermutation _ _ _).mp (List.mem_of_mem_take hi)
  · rw [init_ixes_of_ne_test n s hs] at hi
    exact (mem_npPermutation _ _ _).mp (List.mem_of_mem_drop hi)

theorem hundred_pow (n : Nat) : (10 ^ n) ^ 2 = 100 ^ n := by
  rw [← Nat.pow_mul, Nat.mul_comm, Nat.pow_mul]

theorem npPermutation_one : npPermutation 1337 1 = [0] := by decide

/-! ### Claim theorems about construction and splitting -/

/-- C1: for every digit width `n ≥ 1`, the train and test splits partition the
universe index set exactly: their sizes sum to `100 ^ n`, their stored
universe-index sets are disjoint, and together they cover `[0, 100 ^ n)`. -/
theorem addition_train_test_partition (n : Nat) (_hn : 1 ≤ n) :
    (AdditionDataset.init n "train").size + (AdditionDataset.init n "test").size = 100 ^ n ∧
    (∀ i, i ∈ (AdditionDataset.init n "train").ixes →
      i ∉ (AdditionDataset.init n "test").ixes) ∧
    (∀ i, (i ∈ (AdditionDataset.init n "train").ixes ∨
      i ∈ (AdditionDataset.init n "test").ixes) ↔ i < 100 ^ n) := by
  have hperm := List.take_append_drop (min ((10 ^ n) ^ 2 / 5) 1000)
    (npPermutation 1337 ((10 ^ n) ^ 2))
  have hnodup : ((npPermutation 1337 ((10 ^ n) ^ 2)).take (min ((10 ^ n) ^ 2 / 5) 1000) ++
      (npPermutation 1337 ((10 ^ n) ^ 2)).drop (min ((10 ^ n) ^ 2 / 5) 1000)).Nodup := by
    rw [hperm]
    exact npPermutation_nodup _ _
  have hdisj := (List.nodup_append.mp hnodup).2.2
  have htrain : (AdditionDataset.init n "train").ixes
      = (npPermutation 1337 ((10 ^ n) ^ 2)).drop (min ((10 ^ n) ^ 2 / 5) 1000) :=
    init_ixes_of_ne_test n "train" (by decide)
  refine ⟨?_, ?_, ?_⟩
  · rw [train_size n "train" (by decide), test_size,
      Nat.sub_add_cancel (num_test_le n), hundred_pow]
  · intro i hi hmem
    rw [htrain] at hi
    rw [init_ixes_test] at hmem
    exact hdisj hmem hi
  · intro i
    rw [htrain, init_ixes_test, ← hundred_pow n, ← mem_npPermutation 1337 ((10 ^ n) ^ 2) i]
    constructor
    · rintro (h | h)
      · exact List.mem_of_mem_drop h
      · exact List.mem_of_mem_take h
    · intro h
      have h2 : i ∈ (npPermutation 1337 ((10 ^ n) ^ 2)).take (min ((10 ^ n) ^ 2 / 5) 1000) ++
          (npPermutation 1337 ((10 ^ n) ^ 2)).drop (min ((10 ^ n) ^ 2 / 5) 1000) := by
        rw [hperm]
        exact h
      rcases List.mem_append.mp h2 with h' | h'
      · exact Or.inr h'
      · exact Or.inl h'

/-- Witness for C1 at `n = 1`. -/
theorem addition_train_test_partition_witness :
    (AdditionDataset.init 1 "train").size + (AdditionDataset.init 1 "test").size = 100 ^ 1 ∧
    (∀ i, i ∈ (AdditionDataset.init 1 "train").ixes →
      i ∉ (AdditionDataset.init 1 "test").ixes) ∧
    (∀ i, (i ∈ (AdditionDataset.init 1 "train").ixes ∨
      i ∈ (AdditionDataset.init 1 "test").ixes) ↔ i < 100 ^ 1) :=
  addition_train_test_partition 1 (by decide)

/-- C5 counterexample: constructing with digit width `0 < 1` does not fail for
either split selector; both constructions succeed, the train split holding the
single universe index `0` and the test split being empty. -/
theorem addition_construct_width_zero_succeeds :
    (AdditionDataset.init 0 "train").ixes = [0] ∧
    (AdditionDataset.init 0 "test").ixes = [] := by
  constructor <;> decide

/-- C5 amended: the digit width is not validated; construction with width `0`
succeeds silently for every split selector, yielding a universe of size `1`
whose single index `0` lands in the train split while the test split is empty. -/
theorem addition_construct_width_zero_behavior (s : String) :
    (AdditionDataset.init 0 s).ixes = if s == "test" then ([] : List Nat) else [0] := by
  by_cases hs : s = "test"
  · subst hs
    rw [init_ixes_test]
    simp [npPermutation_one]
  · have h : (s == "test") = false := by simpa using hs
    rw [init_ixes_of_ne_test 0 s hs, h]
    simp [npPermutation_one]

/-- C6: for every digit width `n ≥ 1` the test split's size equals
`min (100 ^ n / 5) 1000`, i.e. `min(floor(0.2 * 100^n), 1000)`. -/
theorem addition_test_size (n : Nat) (_hn : 1 ≤ n) :
    (AdditionDataset.init n "test").size = min (100 ^ n / 5) 1000 := by
  rw [test_size, hundred_pow]

/-- Witness for C6 at `n = 1`: universe size `100`, test size `20`. -/
theorem addition_test_size_witness :
    (AdditionDataset.init 1 "test").size = 20 := by
  rw [addition_test_size 1 (by decide)]
  decide

/-- C7: construction is deterministic: two constructions with the same digit
width and the same split selector store identical ordered sequences of
universe indices, and both splits are carved from the single fixed
permutation of `[0, 100 ^ n)` generated from seed `1337`. -/
theorem addition_construction_deterministic (n1 n2 : Nat) (s1 s2 : String)
    (hn : n1 = n2) (hs : s1 = s2) :
    (AdditionDataset.init n1 s1).ixes = (AdditionDataset.init n2 s2).ixes ∧
    (AdditionDataset.init n1 "test").ixes ++ (AdditionDataset.init n1 "train").ixes
      = npPermutation 1337 (100 ^ n1) := by
  subst hn
  subst hs
  refine ⟨rfl, ?_⟩
  rw [init_ixes_test, init_ixes_of_ne_test n1 "train" (by decide), ← hundred_pow n1]
  exact List.take_append_drop _ _

/-- Witness for C7 at `n = 1`, both constructions using the `train` split. -/
theorem addition_construction_deterministic_witness :
    (AdditionDataset.init 1 "train").ixes = (AdditionDataset.init 1 "train").ixes ∧
    (AdditionDataset.init 1 "test").ixes ++ (AdditionDataset.init 1 "train").ixes
      = npPermutation 1337 (100 ^ 1) :=
  addition_construction_deterministic 1 1 "train" "train" rfl rfl

/-- C10: the split selector is not validated: any selector other than the
exact string `"test"` (including `"Test"` or arbitrary strings) silently
yields the train split's index sequence. -/
theorem addition_split_not_validated (n : Nat) (s : String) (hs : s ≠ "test") :
    (AdditionDataset.init n s).ixes = (AdditionDataset.init n "train").ixes := by
  rw [init_ixes_of_ne_test n s hs, init_ixes_of_ne_test n "train" (by decide)]

/-- Witness for C10 at `n = 1` with the misspelled selector `"Test"`. -/
theorem addition_split_not_validated_witness :
    (AdditionDataset.init 1 "Test").ixes = (AdditionDataset.init 1 "train").ixes :=
  addition_split_not_validated 1 "Test" (by decide)

/-! ### Decimal rendering facts -/

theorem toDecimalGo_adequate (m : Nat) : ∀ (f1 f2 : Nat), m < f1 → m < f2 →
    toDecimalGo f1 m = toDecimalGo f2 m := by
  induction m using Nat.strong_induction_on with
  | _ m ih =>
    intro f1 f2 h1 h2
    cases f1 with
    | zero => omega
    | succ f1 =>
      cases f2 with
      | zero => omega
      | succ f2 =>
        simp only [toDecimalGo]
        by_cases hm : m < 10
        · simp [hm]
        · simp only [if_neg hm]
          have hd : m / 10 < m := Nat.div_lt_self (by omega) (by omega)
          rw [ih (m / 10) hd f1 f2 (by omega) (by omega)]

theorem toDecimal_of_lt (m : Nat) (h : m < 10) : toDecimal m = [m] := by
  simp [toDecimal, toDecimalGo, h]

theorem toDecimal_of_ge (m : Nat) (h : 10 ≤ m) :
    toDecimal m = toDecimal (m / 10) ++ [m % 10] := by
  have hd : m / 10 < m := Nat.div_lt_self (by omega) (by omega)
  have h1 : toDecimal m = toDecimalGo m (m / 10) ++ [m % 10] := by
    show toDecimalGo (m + 1) m = _
    rw [show toDecimalGo (m + 1) m
        = if m < 10 then [m] else toDecimalGo m (m / 10) ++ [m % 10] from rfl,
      if_neg (by omega : ¬ m < 10)]
  rw [h1, toDecimalGo_adequate (m / 10) m (m / 10 + 1) (by omega) (by omega)]
  rfl

theorem toDecimal_length_pos (m : Nat) : 1 ≤ (toDecimal m).length := by
  by_cases h : m < 10
  · simp [toDecimal_of_lt m h]
  · rw [toDecimal_of_ge m (by omega)]
    simp

theorem toDecimal_length_le : ∀ (w m : Nat), m < 10 ^ w → 1 ≤ w →
    (toDecimal m).length ≤ w := by
  intro w
  induction w with
  | zero => intro m _ h2; omega
  | succ w ih =>
    intro m h1 _
    by_cases hm : m < 10
    · rw [toDecimal_of_lt m hm]
      simp
    · have hw : 1 ≤ w := by
        rcases Nat.eq_zero_or_pos w with hw0 | hw0
        · subst hw0
          simp at h1
          omega
        · exact hw0
      rw [toDecimal_of_ge m (by omega)]
      simp only [List.length_append, List.length_cons, List.length_nil]
      have hdiv : m / 10 < 10 ^ w := by
        rw [Nat.div_lt_iff_lt_mul (by omega : (0:Nat) < 10)]
        calc m < 10 ^ (w + 1) := h1
        _ = 10 ^ w * 10 := by rw [pow_succ]
      have := ih (m / 10) hdiv hw
      omega

theorem renderNum_length (w m : Nat) (h1 : m < 10 ^ w) (h2 : 1 ≤ w) :
    (renderNum w m).length = w := by
  have hle := toDecimal_length_le w m h1 h2
  simp only [renderNum, List.length_append, List.length_replicate]
  omega

theorem fromDecimal_append_singleton (l : List Nat) (d : Nat) :
    fromDecimal (l ++ [d]) = 10 * fromDecimal l + d := by
  simp [fromDecimal, List.foldl_append]

theorem fromDecimal_toDecimal (m : Nat) : fromDecimal (toDecimal m) = m := by
  induction m using Nat.strong_induction_on with
  | _ m ih =>
    by_cases h : m < 10
    · simp [toDecimal_of_lt m h, fromDecimal]
    · rw [toDecimal_of_ge m (by omega), fromDecimal_append_singleton,
        ih (m / 10) (Nat.div_lt_self (by omega) (by omega))]
      omega

theorem foldl_replicate_zero (k : Nat) :
    List.foldl (fun acc d => 10 * acc + d) 0 (List.replicate k 0) = 0 := by
  induction k with
  | zero => rfl
  | succ k ih => simpa [List.replicate_succ] using ih

theorem fromDecimal_renderNum (w m : Nat) : fromDecimal (renderNum w m) = m := by
  have h := fromDecimal_toDecimal m
  simp only [renderNum, fromDecimal, List.foldl_append, foldl_replicate_zero] at *
  exact h

theorem foldlZ_map_ofNat (l : List Nat) : ∀ (a : Nat),
    List.foldl (fun acc d => 10 * acc + d) ((a : Nat) : Int)
        (l.map (fun d : Nat => (d : Int)))
      = ((List.foldl (fun acc d => 10 * acc + d) a l : Nat) : Int) := by
  induction l with
  | nil => intro a; simp
  | cons d l ih =>
    intro a
    simp only [List.map_cons, List.foldl_cons]
    rw [show ((10 : Int) * ((a : Nat) : Int) + ((d : Nat) : Int))
        = (((10 * a + d : Nat) : Nat) : Int) by push_cast; ring]
    exact ih (10 * a + d)

theorem fromDecimalZ_map_ofNat (l : List Nat) :
    fromDecimalZ (l.map (fun d : Nat => (d : Int))) = (fromDecimal l : Int) := by
  simpa [fromDecimalZ, fromDecimal] using foldlZ_map_ofNat l 0

/-! ### Item rendering facts -/

theorem udiv_lt (n i : Nat) (hi : i < (10 ^ n) ^ 2) : i / 10 ^ n < 10 ^ n := by
  have hp : 0 < 10 ^ n := pow_pos (by omega) n
  rw [Nat.div_lt_iff_lt_mul hp]
  calc i < (10 ^ n) ^ 2 := hi
  _ = 10 ^ n * 10 ^ n := by ring

theorem umod_lt (n i : Nat) : i % 10 ^ n < 10 ^ n :=
  Nat.mod_lt _ (pow_pos (by omega) n)

theorem sum_lt (n a b : Nat) (ha : a < 10 ^ n) (hb : b < 10 ^ n) :
    a + b < 10 ^ (n + 1) := by
  have h : 10 ^ (n + 1) = 10 ^ n * 10 := pow_succ 10 n
  omega

theorem renderSeq_decomp (n i : Nat) :
    renderSeq n i = renderNum n (i / 10 ^ n) ++ renderNum n (i % 10 ^ n)
      ++ renderNum (n + 1) (i / 10 ^ n + i % 10 ^ n) := rfl

theorem renderSeq_length (n i : Nat) (hn : 1 ≤ n) (hi : i < (10 ^ n) ^ 2) :
    (renderSeq n i).length = 3 * n + 1 := by
  rw [renderSeq_decomp]
  simp only [List.length_append]
  rw [renderNum_length n _ (udiv_lt n i hi) hn,
    renderNum_length n _ (umod_lt n i) hn,
    renderNum_length (n + 1) _ (sum_lt n _ _ (udiv_lt n i hi) (umod_lt n i)) (by omega)]
  ring

theorem renderItem_fst (n i : Nat) :
    (renderItem n i).1 = ((renderSeq n i).dropLast).map (fun d : Nat => (d : Int)) := rfl

theorem renderItem_snd_raw (n i : Nat) :
    (renderItem n i).2
      = maskTo (pySliceStop (((renderSeq n i).drop 1).map (fun d : Nat => (d : Int))).length
          (2 * (n : Int) - 1))
        (((renderSeq n i).drop 1).map (fun d : Nat => (d : Int))) := rfl

theorem renderItem_fst_length (n i : Nat) (hn : 1 ≤ n) (hi : i < (10 ^ n) ^ 2) :
    ((renderItem n i).1).length = 3 * n := by
  rw [renderItem_fst]
  simp only [List.length_map, List.length_dropLast, renderSeq_length n i hn hi]
  omega

theorem renderItem_fst_take_first (n i : Nat) (hn : 1 ≤ n) (hi : i < (10 ^ n) ^ 2) :
    ((renderItem n i).1).take n = (renderNum n (i / 10 ^ n)).map (fun d : Nat => (d : Int)) := by
  have hA := renderNum_length n (i / 10 ^ n) (udiv_lt n i hi) hn
  rw [renderItem_fst, ← List.map_take]
  congr 1
  rw [List.dropLast_eq_take, renderSeq_length n i hn hi, List.take_take]
  have hmin : min n (3 * n + 1 - 1) = n := by omega
  rw [hmin, renderSeq_decomp, List.append_assoc]
  have htl := List.take_left (renderNum n (i / 10 ^ n))
    (renderNum n (i % 10 ^ n) ++ renderNum (n + 1) (i / 10 ^ n + i % 10 ^ n))
  rw [hA] at htl
  exact htl

theorem renderItem_fst_take_second (n i : Nat) (hn : 1 ≤ n) (hi : i < (10 ^ n) ^ 2) :
    (((renderItem n i).1).drop n).take n
      = (renderNum n (i % 10 ^ n)).map (fun d : Nat => (d : Int)) := by
  have hA := renderNum_length n (i / 10 ^ n) (udiv_lt n i hi) hn
  have hB := renderNum_length n (i % 10 ^ n) (umod_lt n i) hn
  rw [renderItem_fst, ← List.map_drop, ← List.map_take]
  congr 1
  rw [List.dropLast_eq_take, renderSeq_length n i hn hi, List.drop_take, List.take_take]
  have hmin : min n (3 * n + 1 - 1 - n) = n := by omega
  rw [hmin, renderSeq_decomp, List.append_assoc]
  have hd := List.drop_left (renderNum n (i / 10 ^ n))
    (renderNum n (i % 10 ^ n) ++ renderNum (n + 1) (i / 10 ^ n + i % 10 ^ n))
  rw [hA] at hd
  rw [hd]
  have htl := List.take_left (renderNum n (i % 10 ^ n))
    (renderNum (n + 1) (i / 10 ^ n + i % 10 ^ n))
  rw [hB] at htl
  exact htl

theorem renderSeq_drop_2n (n i : Nat) (hn : 1 ≤ n) (hi : i < (10 ^ n) ^ 2) :
    (renderSeq n i).drop (2 * n) = renderNum (n + 1) (i / 10 ^ n + i % 10 ^ n) := by
  rw [renderSeq_decomp]
  have hA := renderNum_length n (i / 10 ^ n) (udiv_lt n i hi) hn
  have hB := renderNum_length n (i % 10 ^ n) (umod_lt n i) hn
  have hd := List.drop_left (renderNum n (i / 10 ^ n) ++ renderNum n (i % 10 ^ n))
    (renderNum (n + 1) (i / 10 ^ n + i % 10 ^ n))
  rw [List.length_append, hA, hB] at hd
  have h2 : n + n = 2 * n := by omega
  rw [h2] at hd
  exact hd

theorem renderItem_snd_eq (n i : Nat) (hn : 1 ≤ n) (hi : i < (10 ^ n) ^ 2) :
    (renderItem n i).2 = List.replicate (2 * n - 1) (-100)
      ++ ((renderSeq n i).drop (2 * n)).map (fun d : Nat => (d : Int)) := by
  rw [renderItem_snd_raw]
  have hlen : (((renderSeq n i).drop 1).map (fun d : Nat => (d : Int))).length = 3 * n := by
    simp only [List.length_map, List.length_drop, renderSeq_length n i hn hi]
    omega
  rw [hlen]
  have hstop : pySliceStop (3 * n) (2 * (n : Int) - 1) = 2 * n - 1 := by
    rw [pySliceStop, if_neg (by omega : ¬ (2 * (n : Int) - 1 < 0))]
    have h1 : (2 * (n : Int) - 1).toNat = 2 * n - 1 := by omega
    rw [h1]
    omega
  rw [hstop, maskTo, hlen]
  have hmin : min (2 * n - 1) (3 * n) = 2 * n - 1 := by omega
  rw [hmin]
  congr 1
  rw [← List.map_drop, List.drop_drop]
  congr 2
  omega

theorem renderItem_snd_length (n i : Nat) (hn : 1 ≤ n) (hi : i < (10 ^ n) ^ 2) :
    ((renderItem n i).2).length = 3 * n := by
  rw [renderItem_snd_eq n i hn hi]
  simp only [List.length_append, List.length_replicate, List.length_map,
    List.length_drop, renderSeq_length n i hn hi]
  omega

/-! ### Item lookup facts -/

theorem getitem_pos (d : AdditionDataset) (k : Int) (h0 : 0 ≤ k)
    (hk : k < (d.ixes.length : Int)) :
    d.getitem k = some (renderItem d.ndigit (d.ixes.getD k.toNat 0)) := by
  have hneg : ¬ (k < 0) := by omega
  simp only [AdditionDataset.getitem, if_neg hneg, if_pos (⟨h0, hk⟩ : _ ∧ _)]

theorem getitem_nat (d : AdditionDataset) (k : Nat) (hk : k < d.ixes.length) :
    d.getitem k = some (renderItem d.ndigit (d.ixes.getD k 0)) := by
  rw [getitem_pos d k (by omega) (by exact_mod_cast hk), Int.toNat_natCast]

theorem getitem_neg_formula (d : AdditionDataset) (k : Int)
    (h1 : -(d.ixes.length : Int) ≤ k) (h2 : k < 0) :
    d.getitem k
      = some (renderItem d.ndigit (d.ixes.getD ((d.ixes.length : Int) + k).toNat 0)) := by
  have hcond : (0 : Int) ≤ (d.ixes.length : Int) + k ∧
      (d.ixes.length : Int) + k < (d.ixes.length : Int) := by omega
  simp only [AdditionDataset.getitem, if_pos h2, if_pos hcond]

theorem getitem_none_iff (d : AdditionDataset) (k : Int) :
    d.getitem k = none ↔ (k < -(d.ixes.length : Int) ∨ (d.ixes.length : Int) ≤ k) := by
  simp only [AdditionDataset.getitem]
  split_ifs with h1 h2 h2
  · simp only [reduceCtorEq, false_iff]
    omega
  · simp only [true_iff]
    omega
  · simp only [reduceCtorEq, false_iff]
    omega
  · simp only [true_iff]
    omega

theorem ixes_getD_lt (n : Nat) (s : String) (k : Nat)
    (hk : k < (AdditionDataset.init n s).ixes.length) :
    (AdditionDataset.init n s).ixes.getD k 0 < (10 ^ n) ^ 2 := by
  apply mem_ixes_lt n s
  rw [List.getD_eq_getElem _ _ hk]
  exact List.getElem_mem _

theorem getD_map_ofNat_nonneg (l : List Nat) (j : Nat) (hj : j < l.length) :
    0 ≤ (l.map (fun d : Nat => (d : Int))).getD j 0 := by
  rw [List.getD_eq_getElem _ _ (by simpa using hj)]
  simp

theorem getD_replicate_of_lt (k : Nat) (v : Int) (j : Nat) (hj : j < k) :
    (List.replicate k v).getD j 0 = v := by
  rw [List.getD_eq_getElem _ _ (by simpa using hj), List.getElem_replicate]

theorem getD_append_left_of_lt (l1 l2 : List Int) (j : Nat) (hj : j < l1.length) :
    (l1 ++ l2).getD j 0 = l1.getD j 0 := by
  rw [List.getD_eq_getElem _ _ (by simp; omega), List.getD_eq_getElem _ _ hj,
    List.getElem_append_left hj]

/-! ### Claim theorems about item lookup and rendering -/

/-- C4 counterexample: the claim says the item query fails for every negative
position, but numpy negative indexing makes `dataset[-1]` succeed: for
`n = 1` the test split has 20 items and the query at position `-1` returns an
item instead of failing. -/
theorem addition_getitem_negative_index_succeeds :
    (AdditionDataset.init 1 "test").getitem (-1) ≠ none := by
  have hlen : (AdditionDataset.init 1 "test").ixes.length = 20 := by
    have h := test_size 1
    simp only [AdditionDataset.size] at h
    norm_num at h
    exact h
  rw [getitem_neg_formula _ _ (by rw [hlen]; norm_num) (by norm_num)]
  simp

/-- C4 amended: the item query on a constructed dataset fails with the
out-of-range error exactly when the position is `≥ size` or `< -size`;
positions in `[-size, 0)` follow numpy negative-index wrap-around and return
the item at position `size + k` instead of failing. -/
theorem addition_getitem_bounds (n : Nat) (s : String) (k : Int) :
    ((AdditionDataset.init n s).getitem k = none ↔
      (k < -((AdditionDataset.init n s).size : Int) ∨
        ((AdditionDataset.init n s).size : Int) ≤ k)) ∧
    (-((AdditionDataset.init n s).size : Int) ≤ k → k < 0 →
      (AdditionDataset.init n s).getitem k
        = (AdditionDataset.init n s).getitem (((AdditionDataset.init n s).size : Int) + k)) := by
  have hsz : (AdditionDataset.init n s).size = (AdditionDataset.init n s).ixes.length := rfl
  constructor
  · rw [hsz]
    exact getitem_none_iff _ _
  · intro h1 h2
    rw [hsz] at h1 ⊢
    rw [getitem_neg_formula _ _ h1 h2, getitem_pos _ _ (by omega) (by omega)]

/-- C2: round trip: for every digit width `n ≥ 1`, every split, and every
valid position, the returned item `(x, y)` satisfies: reading `a` from the
first `n` tokens of `x` and `b` from the next `n` tokens, the zero-padded
`(n+1)`-digit rendering of `a + b` equals the last `n + 1` tokens of the full
rendered sequence (`x`'s first token followed by all of `y`); moreover
`i ↦ (i / 10^n, i % 10^n)` is a bijection from `[0, 100^n)` onto
`[0, 10^n) × [0, 10^n)`. -/
theorem addition_item_roundtrip (n : Nat) (hn : 1 ≤ n) (s : String) (k : Nat)
    (hk : k < (AdditionDataset.init n s).size) :
    (∀ x y, (AdditionDataset.init n s).getitem k = some (x, y) →
      ∃ a b : Nat, fromDecimalZ (x.take n) = (a : Int) ∧
        fromDecimalZ ((x.drop n).take n) = (b : Int) ∧
        (x.take 1 ++ y).drop (2 * n)
          = (renderNum (n + 1) (a + b)).map (fun d : Nat => (d : Int))) ∧
    (∀ i, i < 100 ^ n → (decodeIdx n i).1 < 10 ^ n ∧ (decodeIdx n i).2 < 10 ^ n) ∧
    (∀ i j, i < 100 ^ n → j < 100 ^ n → decodeIdx n i = decodeIdx n j → i = j) ∧
    (∀ a b, a < 10 ^ n → b < 10 ^ n → ∃ i, i < 100 ^ n ∧ decodeIdx n i = (a, b)) := by
  simp only [AdditionDataset.size] at hk
  refine ⟨?_, ?_, ?_, ?_⟩
  · intro x y hxy
    rw [getitem_nat _ k hk, init_ndigit] at hxy
    have hi : (AdditionDataset.init n s).ixes.getD k 0 < (10 ^ n) ^ 2 :=
      ixes_getD_lt n s k hk
    injection hxy with hpair
    have hx : x = (renderItem n ((AdditionDataset.init n s).ixes.getD k 0)).1 := by
      rw [hpair]
    have hy : y = (renderItem n ((AdditionDataset.init n s).ixes.getD k 0)).2 := by
      rw [hpair]
    refine ⟨(AdditionDataset.init n s).ixes.getD k 0 / 10 ^ n,
      (AdditionDataset.init n s).ixes.getD k 0 % 10 ^ n, ?_, ?_, ?_⟩
    · rw [hx, renderItem_fst_take_first n _ hn hi, fromDecimalZ_map_ofNat,
        fromDecimal_renderNum]
    · rw [hx, renderItem_fst_take_second n _ hn hi, fromDecimalZ_map_ofNat,
        fromDecimal_renderNum]
    · have hxlen : x.length = 3 * n := by
        rw [hx]
        exact renderItem_fst_length n _ hn hi
      have htake1 : (x.take 1).length = 1 := by
        rw [List.length_take, hxlen]
        omega
      have hsplit : 2 * n = (x.take 1).length + (2 * n - 1) := by
        rw [htake1]
        omega
      rw [hsplit, List.drop_append, hy, renderItem_snd_eq n _ hn hi]
      have hrep := List.drop_left (List.replicate (2 * n - 1) (-100 : Int))
        (((renderSeq n ((AdditionDataset.init n s).ixes.getD k 0)).drop (2 * n)).map
          (fun d : Nat => (d : Int)))
      rw [List.length_replicate] at hrep
      rw [hrep, renderSeq_drop_2n n _ hn hi]
  · intro i hi
    rw [← hundred_pow] at hi
    exact ⟨udiv_lt n i hi, umod_lt n i⟩
  · intro i j _ _ hij
    simp only [decodeIdx, Prod.mk.injEq] at hij
    have h1 := Nat.div_add_mod i (10 ^ n)
    have h2 := Nat.div_add_mod j (10 ^ n)
    rw [← h1, ← h2, hij.1, hij.2]
  · intro a b ha hb
    refine ⟨10 ^ n * a + b, ?_, ?_⟩
    · rw [← hundred_pow]
      have h1 : a + 1 ≤ 10 ^ n := ha
      calc 10 ^ n * a + b < 10 ^ n * a + 10 ^ n := by omega
      _ = 10 ^ n * (a + 1) := by ring
      _ ≤ 10 ^ n * 10 ^ n := Nat.mul_le_mul_left _ h1
      _ = (10 ^ n) ^ 2 := by ring
    · simp only [decodeIdx, Prod.mk.injEq]
      rw [Nat.mul_add_div (pow_pos (by omega) n), Nat.mul_add_mod,
        Nat.div_eq_of_lt hb, Nat.mod_eq_of_lt hb]
      exact ⟨by omega, rfl⟩

/-- Witness for C2 at `n = 1`, split `"train"`, position `0`. -/
theorem addition_item_roundtrip_witness :
    (∀ x y, (AdditionDataset.init 1 "train").getitem ((0 : Nat) : Int) = some (x, y) →
      ∃ a b : Nat, fromDecimalZ (x.take 1) = (a : Int) ∧
        fromDecimalZ ((x.drop 1).take 1) = (b : Int) ∧
        (x.take 1 ++ y).drop (2 * 1)
          = (renderNum (1 + 1) (a + b)).map (fun d : Nat => (d : Int))) ∧
    (∀ i, i < 100 ^ 1 → (decodeIdx 1 i).1 < 10 ^ 1 ∧ (decodeIdx 1 i).2 < 10 ^ 1) ∧
    (∀ i j, i < 100 ^ 1 → j < 100 ^ 1 → decodeIdx 1 i = decodeIdx 1 j → i = j) ∧
    (∀ a b, a < 10 ^ 1 → b < 10 ^ 1 → ∃ i, i < 100 ^ 1 ∧ decodeIdx 1 i = (a, b)) :=
  addition_item_roundtrip 1 (by decide) "train" 0
    (by rw [train_size 1 "train" (by decide)]; norm_num)

/-- C3: in every returned target `y` the first `2n - 1` entries equal the
ignore sentinel `-100`, and no entry at any other position equals it. -/
theorem addition_target_masking (n : Nat) (hn : 1 ≤ n) (s : String) (k : Nat)
    (hk : k < (AdditionDataset.init n s).size) :
    ∀ x y, (AdditionDataset.init n s).getitem k = some (x, y) →
      ∀ j, j < y.length → (y.getD j 0 = -100 ↔ j < 2 * n - 1) := by
  simp only [AdditionDataset.size] at hk
  intro x y hxy j hj
  rw [getitem_nat _ k hk, init_ndigit] at hxy
  have hi : (AdditionDataset.init n s).ixes.getD k 0 < (10 ^ n) ^ 2 :=
    ixes_getD_lt n s k hk
  injection hxy with hpair
  have hy : y = (renderItem n ((AdditionDataset.init n s).ixes.getD k 0)).2 := by
    rw [hpair]
  rw [hy, renderItem_snd_eq n _ hn hi] at hj ⊢
  have hsum : (AdditionDataset.init n s).ixes.getD k 0 / 10 ^ n +
      (AdditionDataset.init n s).ixes.getD k 0 % 10 ^ n < 10 ^ (n + 1) :=
    sum_lt n _ _ (udiv_lt n _ hi) (umod_lt n _)
  have htaillen : ((renderSeq n ((AdditionDataset.init n s).ixes.getD k 0)).drop
      (2 * n)).length = n + 1 := by
    rw [renderSeq_drop_2n n _ hn hi, renderNum_length (n + 1) _ hsum (by omega)]
  have hrep : (List.replicate (2 * n - 1) (-100 : Int)).length = 2 * n - 1 :=
    List.length_replicate _ _
  constructor
  · intro hval
    by_contra hge
    push_neg at hge
    rw [List.getD_append_right _ _ _ _ (by rw [hrep]; omega)] at hval
    have hnn := getD_map_ofNat_nonneg
      ((renderSeq n ((AdditionDataset.init n s).ixes.getD k 0)).drop (2 * n))
      (j - (List.replicate (2 * n - 1) (-100 : Int)).length)
      (by
        rw [List.length_append, List.length_map, htaillen, hrep] at hj
        rw [htaillen, hrep]
        omega)
    rw [hval] at hnn
    omega
  · intro hlt
    rw [getD_append_left_of_lt _ _ _ (by rw [hrep]; omega),
      getD_replicate_of_lt (2 * n - 1) (-100) j hlt]

/-- Witness for C3 at `n = 1`, split `"train"`, position `0`. -/
theorem addition_target_masking_witness :
    0 < (AdditionDataset.init 1 "train").size ∧
    (∀ x y, (AdditionDataset.init 1 "train").getitem ((0 : Nat) : Int) = some (x, y) →
      ∀ j, j < y.length → (y.getD j 0 = -100 ↔ j < 2 * 1 - 1)) :=
  ⟨by rw [train_size 1 "train" (by decide)]; norm_num,
    addition_target_masking 1 (by decide) "train" 0
      (by rw [train_size 1 "train" (by decide)]; norm_num)⟩

/-- C9: for every digit width `n ≥ 1` and every valid position, the rendered
digit sequence has length `3n + 1`, the returned `x` and `y` each have length
exactly `3n`, and the `block_size` constant exposed to the model equals `3n`. -/
theorem addition_sequence_lengths (n : Nat) (hn : 1 ≤ n) (s : String) (k : Nat)
    (hk : k < (AdditionDataset.init n s).size) :
    (∀ i, i < 100 ^ n → (renderSeq n i).length = 3 * n + 1) ∧
    (∀ x y, (AdditionDataset.init n s).getitem k = some (x, y) →
      x.length = 3 * n ∧ y.length = 3 * n) ∧
    (AdditionDataset.init n s).block_size = 3 * n := by
  simp only [AdditionDataset.size] at hk
  refine ⟨?_, ?_, ?_⟩
  · intro i hi
    rw [← hundred_pow] at hi
    exact renderSeq_length n i hn hi
  · intro x y hxy
    rw [getitem_nat _ k hk, init_ndigit] at hxy
    have hi : (AdditionDataset.init n s).ixes.getD k 0 < (10 ^ n) ^ 2 :=
      ixes_getD_lt n s k hk
    injection hxy with hpair
    constructor
    · have h := renderItem_fst_length n _ hn hi
      rw [hpair] at h
      exact h
    · have h := renderItem_snd_length n _ hn hi
      rw [hpair] at h
      exact h
  · rw [init_block_size]
    omega

/-- Witness for C9 at `n = 1`, split `"train"`, position `0`. -/
theorem addition_sequence_lengths_witness :
    (∀ i, i < 100 ^ 1 → (renderSeq 1 i).length = 3 * 1 + 1) ∧
    (∀ x y, (AdditionDataset.init 1 "train").getitem ((0 : Nat) : Int) = some (x, y) →
      x.length = 3 * 1 ∧ y.length = 3 * 1) ∧
    (AdditionDataset.init 1 "train").block_size = 3 * 1 :=
  addition_sequence_lengths 1 (by decide) "train" 0
    (by rw [train_size 1 "train" (by decide)]; norm_num)

/-- C8 counterexample: at `n = 2` the problem `6 + 39 = 45` (universe index
`639`) does not yield the 7-token target the claim states: the returned `y`
is the render shifted left by one with its first three entries masked, which
is `[-100,-100,-100,0,4,5]`, not `[-100,-100,-100,9,0,4,5]`. -/
theorem addition_render_6_39_target_ne_spec :
    (renderItem 2 639).2 ≠ [-100, -100, -100, 9, 0, 4, 5] := by decide

/-- C8 amended: operands are always rendered zero-padded to width `n` and the
sum to exactly width `n + 1` (even with fewer meaningful digits); at `n = 2`
the problem `6 + 39 = 45` renders as `[0,6,3,9,0,4,5]` with
`x = [0,6,3,9,0,4]` and `y = [-100,-100,-100,0,4,5]` (the render shifted left
by one, its first `2n - 1 = 3` entries masked, so `y` has length `6`). -/
theorem addition_render_6_39 :
    (∀ n a, 1 ≤ n → a < 10 ^ n → (renderNum n a).length = n) ∧
    (∀ n c, c < 10 ^ (n + 1) → ((renderNum (n + 1) c).length = n + 1 ∧
      fromDecimal (renderNum (n + 1) c) = c)) ∧
    renderSeq 2 639 = [0, 6, 3, 9, 0, 4, 5] ∧
    (renderItem 2 639).1 = [0, 6, 3, 9, 0, 4] ∧
    (renderItem 2 639).2 = [-100, -100, -100, 0, 4, 5] := by
  refine ⟨?_, ?_, by decide, by decide, by decide⟩
  · intro n a h1 h2
    exact renderNum_length n a h2 h1
  · intro n c hc
    exact ⟨renderNum_length (n + 1) c hc (by omega), fromDecimal_renderNum _ _⟩

example : toDecimal 45 = [4, 5] := by decide
example : renderNum 3 45 = [0, 4, 5] := by decide
example : renderSeq 2 639 = [0, 6, 3, 9, 0, 4, 5] := by decide
example : renderItem 2 639 = ([0, 6, 3, 9, 0, 4], [-100, -100, -100, 0, 4, 5]) := by decide
example : fromDecimal [0, 4, 5] = 45 := by decide
